import Mathlib

/-!
Verification of the PIRA timeline engine: a shallow embedding of the
date arithmetic, tick generation, geometry, conflict detection and drag
editing described by the repository, together with proofs of the spec's
claims about them.

Dates are handled by the JavaScript `Date` built-ins (`Date.UTC`,
`getUTCFullYear`, `getUTCMonth`, `getUTCDate`, `getUTCDay`, the
`new Date(y, m, d)` constructor).  Those built-ins are modelled here by
the ECMAScript specification's own abstract operations (DayFromYear,
MonthFromTime, DateFromTime, MakeDay, MakeFullYear, WeekDay) over the
proleptic Gregorian calendar, with integers for millisecond and day
counts.  YearFromTime, which ECMAScript specifies declaratively (the
unique year whose first day is on or before the given day), is computed
by a standard estimate-and-correct implementation and proved to satisfy
exactly that declarative property (`yearFromDay_bracket`,
`yearFromDay_eq`).
-/

namespace PIRA

/-- `MS_PER_DAY` from `src/utils/dateMath.ts`: milliseconds per day. -/
def MS_PER_DAY : Int := 86400000

/-- ECMAScript DaysInYear: a proleptic-Gregorian leap year test
(`y % 4 = 0` and `y % 100 ≠ 0`, or `y % 400 = 0`). -/
def isLeap (y : Int) : Bool := (y % 4 == 0 && y % 100 != 0) || y % 400 == 0

/-- ECMAScript DaysInYear. -/
def daysInYear (y : Int) : Int := if isLeap y then 366 else 365

/-- ECMAScript DayFromYear: the day number (days since the 1970 epoch)
of January 1 of year `y`. -/
def dayFromYear (y : Int) : Int :=
  365 * (y - 1970) + (y - 1969) / 4 - (y - 1901) / 100 + (y - 1601) / 400

/-- The extra day a leap year contributes, as an integer. -/
def leapInt : Bool → Int
  | true => 1
  | false => 0

/-- Cumulative days before 0-based month `m0` of a year (the boundaries
of ECMAScript MonthFromTime), in closed form.  For `m0 = 0, ..., 12` and
leap flag `L` this yields exactly the ECMAScript table
`0, 31, 59+L, 90+L, 120+L, 151+L, 181+L, 212+L, 243+L, 273+L, 304+L,
334+L, 365+L` (see `monthOffset_table`); months from March onward use
the standard five-month 153-day cycle. -/
def monthOffset (leap : Bool) (m0 : Int) : Int :=
  let L : Int := leapInt leap
  if m0 ≤ 0 then 0
  else if m0 ≤ 1 then 31
  else if m0 ≤ 11 then 59 + L + (153 * (m0 - 2) + 2) / 5
  else 365 + L

/-- Number of days of 1-based month `m` in year `y`. -/
def daysInMonth (y : Int) (m : Int) : Int :=
  monthOffset (isLeap y) m - monthOffset (isLeap y) (m - 1)

/-- ECMAScript MakeDay for integer arguments: 0-based month `m0` (and
day `d`) roll over into neighbouring months and years. -/
def makeDay (y m0 d : Int) : Int :=
  let ym := y + m0 / 12
  let mn := m0 % 12
  dayFromYear ym + monthOffset (isLeap ym) mn + (d - 1)

/-- ECMAScript MakeFullYear, applied by `Date.UTC` and the
`new Date(y, ...)` constructor: years 0–99 are mapped to 1900–1999. -/
def makeFullYear (y : Int) : Int := if 0 ≤ y ∧ y ≤ 99 then 1900 + y else y

/-- `Date.UTC(y, m0, d, 12)` as used throughout the repository: the
epoch milliseconds of the given calendar day at 12:00 UTC. -/
def dateUTCNoonMs (y m0 d : Int) : Int :=
  MS_PER_DAY * makeDay (makeFullYear y) m0 d + 43200000

/-- ECMAScript Day(t): the day number containing epoch millisecond `t`. -/
def dayOfMs (t : Int) : Int := t / MS_PER_DAY

/-- ECMAScript YearFromTime, on day numbers: the unique year `y` with
`dayFromYear y ≤ n < dayFromYear (y+1)`, computed by an
estimate-and-correct implementation (see `yearFromDay_bracket`). -/
def yearFromDay (n : Int) : Int :=
  let y0 := 400 * n / 146097 + 1970
  let y1 := if n < dayFromYear y0 then y0 - 1 else y0
  if dayFromYear (y1 + 1) ≤ n then y1 + 1 else y1

/-- ECMAScript DayWithinYear, on day numbers. -/
def dayWithinYear (n : Int) : Int := n - dayFromYear (yearFromDay n)

/-- ECMAScript MonthFromTime reduced to the day within the year: the
0-based month containing 0-based year day `doy`, in closed form
(months from March onward by the inverse of the 153-day cycle; agrees
with the ECMAScript month-range table, see `monthFromDoy_bracket`). -/
def monthFromDoy (leap : Bool) (doy : Int) : Int :=
  let L : Int := leapInt leap
  if doy < 31 then 0
  else if doy < 59 + L then 1
  else 2 + (5 * (doy - 59 - L) + 2) / 153

/-- `Date.prototype.getUTCFullYear` on epoch milliseconds. -/
def getUTCFullYear (t : Int) : Int := yearFromDay (dayOfMs t)

/-- `Date.prototype.getUTCMonth` (0-based) on epoch milliseconds. -/
def getUTCMonth (t : Int) : Int :=
  monthFromDoy (isLeap (getUTCFullYear t)) (dayWithinYear (dayOfMs t))

/-- `Date.prototype.getUTCDate` (1-based day of month). -/
def getUTCDate (t : Int) : Int :=
  dayWithinYear (dayOfMs t)
    - monthOffset (isLeap (getUTCFullYear t)) (getUTCMonth t) + 1

/-- ECMAScript WeekDay on day numbers: 0 = Sunday. -/
def weekDayOfDay (n : Int) : Int := (n + 4) % 7

/-- `Date.prototype.getUTCDay` on epoch milliseconds (0 = Sunday). -/
def getUTCDay (t : Int) : Int := weekDayOfDay (dayOfMs t)

/-! ### Calendar lemmas -/

theorem dayFromYear_succ (y : Int) :
    dayFromYear (y + 1) = dayFromYear y + daysInYear y := by
  simp only [dayFromYear, daysInYear, isLeap]
  split <;> rename_i h <;> simp only [Bool.or_eq_true, Bool.and_eq_true,
    beq_iff_eq, bne_iff_ne, ne_eq] at h <;> omega

theorem dayFromYear_le_of_le {y z : Int} (h : y ≤ z) :
    dayFromYear y ≤ dayFromYear z := by
  simp only [dayFromYear]; omega

theorem dayFromYear_lt_of_lt {y z : Int} (h : y < z) :
    dayFromYear y < dayFromYear z := by
  simp only [dayFromYear]; omega

set_option maxHeartbeats 1600000 in
/-- Correctness of the estimate-and-correct implementation of
ECMAScript YearFromTime: every day number lies within the year
`yearFromDay` assigns to it. -/
theorem yearFromDay_bracket (n : Int) :
    dayFromYear (yearFromDay n) ≤ n ∧ n < dayFromYear (yearFromDay n + 1) := by
  simp only [yearFromDay, dayFromYear]
  split <;> split <;> omega

theorem yearFromDay_eq {y n : Int} (h1 : dayFromYear y ≤ n)
    (h2 : n < dayFromYear (y + 1)) : yearFromDay n = y := by
  obtain ⟨b1, b2⟩ := yearFromDay_bracket n
  by_contra hne
  rcases lt_or_gt_of_ne hne with hlt | hgt
  · have : dayFromYear (yearFromDay n + 1) ≤ dayFromYear y :=
      dayFromYear_le_of_le (by omega)
    omega
  · have : dayFromYear (y + 1) ≤ dayFromYear (yearFromDay n) :=
      dayFromYear_le_of_le (by omega)
    omega

theorem isLeap_iff (y : Int) :
    isLeap y = true ↔ ((y % 4 = 0 ∧ ¬ y % 100 = 0) ∨ y % 400 = 0) := by
  simp [isLeap]

set_option maxHeartbeats 800000 in
theorem monthOffset_le_mono (L : Bool) {r r' : Int} (h : r ≤ r') :
    monthOffset L r ≤ monthOffset L r' := by
  cases L <;> simp only [monthOffset, leapInt] <;> split_ifs <;> omega

set_option maxHeartbeats 800000 in
theorem monthOffset_lt_of_lt (L : Bool) {r r' : Int} (h : r < r')
    (h0 : 0 ≤ r) (h1 : r' ≤ 12) : monthOffset L r < monthOffset L r' := by
  cases L <;> simp only [monthOffset, leapInt] <;> split_ifs <;> omega

theorem monthOffset_nonneg (L : Bool) (r : Int) : 0 ≤ monthOffset L r := by
  cases L <;> simp only [monthOffset, leapInt] <;> split_ifs <;> omega

theorem monthOffset_le_table (L : Bool) {r : Int} (h : r ≤ 11) :
    monthOffset L r ≤ 334 + leapInt L := by
  cases L <;> simp only [monthOffset, leapInt] <;> split_ifs <;> omega

theorem monthOffset_twelve (L : Bool) {r : Int} (h : 12 ≤ r) :
    monthOffset L r = 365 + leapInt L := by
  cases L <;> simp only [monthOffset, leapInt] <;> split_ifs <;> omega

/-- The closed-form `monthOffset` yields exactly the ECMAScript
cumulative-days table. -/
theorem monthOffset_table (L : Bool) :
    monthOffset L 0 = 0 ∧ monthOffset L 1 = 31 ∧
      monthOffset L 2 = 59 + leapInt L ∧ monthOffset L 3 = 90 + leapInt L ∧
      monthOffset L 4 = 120 + leapInt L ∧ monthOffset L 5 = 151 + leapInt L ∧
      monthOffset L 6 = 181 + leapInt L ∧ monthOffset L 7 = 212 + leapInt L ∧
      monthOffset L 8 = 243 + leapInt L ∧ monthOffset L 9 = 273 + leapInt L ∧
      monthOffset L 10 = 304 + leapInt L ∧
      monthOffset L 11 = 334 + leapInt L ∧
      monthOffset L 12 = 365 + leapInt L := by
  cases L <;> decide

theorem daysInYear_eq (y : Int) :
    daysInYear y = 365 + leapInt (isLeap y) := by
  simp only [daysInYear]
  cases isLeap y <;> simp [leapInt]

set_option maxHeartbeats 800000 in
/-- The MonthFromTime table is the inverse of the cumulative
month-offset table: a 0-based year day lands in the month whose offset
range contains it. -/
theorem monthFromDoy_bracket (L : Bool) {doy : Int} (h0 : 0 ≤ doy)
    (h1 : doy < 365 + leapInt L) :
    0 ≤ monthFromDoy L doy ∧ monthFromDoy L doy ≤ 11 ∧
      monthOffset L (monthFromDoy L doy) ≤ doy ∧
      doy < monthOffset L (monthFromDoy L doy + 1) := by
  cases L <;>
    simp only [monthFromDoy, leapInt] at h1 ⊢ <;>
    split_ifs <;>
    norm_num [monthOffset, leapInt] <;>
    omega

theorem monthFromDoy_eq (L : Bool) {m0 doy : Int} (hm0 : 0 ≤ m0)
    (hm1 : m0 ≤ 11) (hlo : monthOffset L m0 ≤ doy)
    (hhi : doy < monthOffset L (m0 + 1)) : monthFromDoy L doy = m0 := by
  have hb : 0 ≤ doy := le_trans (monthOffset_nonneg L m0) hlo
  have hub : doy < 365 + leapInt L := by
    have := monthOffset_twelve L (r := 12) (by omega)
    have h12 : monthOffset L (m0 + 1) ≤ monthOffset L 12 :=
      monthOffset_le_mono L (by omega)
    omega
  obtain ⟨q0, q1, q2, q3⟩ := monthFromDoy_bracket L hb hub
  by_contra hne
  rcases lt_or_gt_of_ne hne with hlt | hgt
  · have : monthOffset L (monthFromDoy L doy + 1) ≤ monthOffset L m0 :=
      monthOffset_le_mono L (by omega)
    omega
  · have : monthOffset L (m0 + 1) ≤ monthOffset L (monthFromDoy L doy) :=
      monthOffset_le_mono L (by omega)
    omega

/-! ### Month index form

`monthStartDay M` is the day number of the first day of absolute month
`M` (counting months from month 0 = January of year 0), the value the
tick generators step through. -/

/-- Day number of the 1st of absolute month `M` (January of year 0 is
month 0). -/
def monthStartDay (M : Int) : Int :=
  dayFromYear (M / 12) + monthOffset (isLeap (M / 12)) (M % 12)

theorem makeDay_first_eq_monthStartDay (y m0 : Int) :
    makeDay y m0 1 = monthStartDay (12 * y + m0) := by
  have h1 : (12 * y + m0) / 12 = y + m0 / 12 := by omega
  have h2 : (12 * y + m0) % 12 = m0 % 12 := by omega
  simp only [makeDay, monthStartDay, h1, h2]
  omega

theorem monthStartDay_in_year (M : Int) :
    dayFromYear (M / 12) ≤ monthStartDay M ∧
      monthStartDay M < dayFromYear (M / 12 + 1) := by
  have hr : 0 ≤ M % 12 ∧ M % 12 ≤ 11 := by omega
  have h0 := monthOffset_nonneg (isLeap (M / 12)) (M % 12)
  have h1 := monthOffset_le_table (isLeap (M / 12)) hr.2
  have h2 := dayFromYear_succ (M / 12)
  have h3 := daysInYear_eq (M / 12)
  have h4 : leapInt (isLeap (M / 12)) = 0 ∨ leapInt (isLeap (M / 12)) = 1 := by
    cases isLeap (M / 12) <;> simp [leapInt]
  simp only [monthStartDay]
  omega

theorem monthStartDay_lt_of_lt {M M' : Int} (h : M < M') :
    monthStartDay M < monthStartDay M' := by
  rcases lt_or_ge (M / 12) (M' / 12) with hy | hy
  · have b1 := (monthStartDay_in_year M).2
    have b2 := (monthStartDay_in_year M').1
    have : dayFromYear (M / 12 + 1) ≤ dayFromYear (M' / 12) :=
      dayFromYear_le_of_le (by omega)
    omega
  · have hyy : M / 12 = M' / 12 := by omega
    have hrr : M % 12 < M' % 12 := by omega
    have hlt := monthOffset_lt_of_lt (isLeap (M / 12)) hrr (by omega) (by omega)
    simp only [monthStartDay, hyy] at hlt ⊢
    omega

theorem monthStartDay_le_of_le {M M' : Int} (h : M ≤ M') :
    monthStartDay M ≤ monthStartDay M' := by
  rcases lt_or_eq_of_le h with h' | h'
  · exact le_of_lt (monthStartDay_lt_of_lt h')
  · simp [h']

/-- Every day number lies in the month `[monthStartDay M, monthStartDay (M+1))`
for `M` the absolute month computed from its civil fields. -/
theorem day_month_bracket (n : Int) :
    monthStartDay (12 * yearFromDay n +
        monthFromDoy (isLeap (yearFromDay n)) (dayWithinYear n)) ≤ n ∧
      n < monthStartDay (12 * yearFromDay n +
        monthFromDoy (isLeap (yearFromDay n)) (dayWithinYear n) + 1) := by
  obtain ⟨b1, b2⟩ := yearFromDay_bracket n
  have hsucc := dayFromYear_succ (yearFromDay n)
  have hdy := daysInYear_eq (yearFromDay n)
  have hdw : dayWithinYear n = n - dayFromYear (yearFromDay n) := rfl
  have hdoy0 : 0 ≤ dayWithinYear n := by omega
  have hdoy1 : dayWithinYear n < 365 + leapInt (isLeap (yearFromDay n)) := by
    omega
  obtain ⟨q0, q1, q2, q3⟩ :=
    monthFromDoy_bracket (isLeap (yearFromDay n)) hdoy0 hdoy1
  have e1 : (12 * yearFromDay n +
      monthFromDoy (isLeap (yearFromDay n)) (dayWithinYear n)) / 12 =
      yearFromDay n := by omega
  have e2 : (12 * yearFromDay n +
      monthFromDoy (isLeap (yearFromDay n)) (dayWithinYear n)) % 12 =
      monthFromDoy (isLeap (yearFromDay n)) (dayWithinYear n) := by omega
  constructor
  · simp only [monthStartDay, e1, e2]
    omega
  · rcases lt_or_ge (monthFromDoy (isLeap (yearFromDay n)) (dayWithinYear n))
      11 with hm | hm
    · have e3 : (12 * yearFromDay n +
          monthFromDoy (isLeap (yearFromDay n)) (dayWithinYear n) + 1) / 12 =
          yearFromDay n := by omega
      have e4 : (12 * yearFromDay n +
          monthFromDoy (isLeap (yearFromDay n)) (dayWithinYear n) + 1) % 12 =
          monthFromDoy (isLeap (yearFromDay n)) (dayWithinYear n) + 1 := by
        omega
      simp only [monthStartDay, e3, e4]
      omega
    · have hm11 : monthFromDoy (isLeap (yearFromDay n)) (dayWithinYear n) =
          11 := by omega
      have e3 : (12 * yearFromDay n +
          monthFromDoy (isLeap (yearFromDay n)) (dayWithinYear n) + 1) / 12 =
          yearFromDay n + 1 := by omega
      have e4 : (12 * yearFromDay n +
          monthFromDoy (isLeap (yearFromDay n)) (dayWithinYear n) + 1) % 12 =
          0 := by omega
      have hoff12 :=
        monthOffset_twelve (isLeap (yearFromDay n)) (r := 12) (by omega)
      have hoff0 := monthOffset_nonneg (isLeap (yearFromDay n + 1)) 0
      rw [hm11] at q3
      simp only [monthStartDay, e3, e4]
      omega

/-! ### Civil-field recovery -/

theorem dayOfMs_noon (n : Int) :
    dayOfMs (MS_PER_DAY * n + 43200000) = n := by
  simp only [dayOfMs, MS_PER_DAY]; omega

theorem dayOfMs_bracket (t : Int) :
    MS_PER_DAY * dayOfMs t ≤ t ∧ t < MS_PER_DAY * (dayOfMs t + 1) := by
  simp only [dayOfMs, MS_PER_DAY]; omega

theorem makeFullYear_ge (y : Int) : y ≤ makeFullYear y := by
  simp only [makeFullYear]; split <;> omega

theorem makeFullYear_id {y : Int} (h : 100 ≤ y) : makeFullYear y = y := by
  simp only [makeFullYear]; split <;> omega

/-- `makeDay` applied to an in-range month and day stays within the
year, and its civil fields are recovered exactly. -/
theorem makeDay_civil {y m0 d : Int} (hm0 : 0 ≤ m0) (hm1 : m0 ≤ 11)
    (hd1 : 1 ≤ d) (hd2 : d ≤ daysInMonth y (m0 + 1)) :
    yearFromDay (makeDay y m0 d) = y ∧
      dayWithinYear (makeDay y m0 d) =
        monthOffset (isLeap y) m0 + (d - 1) ∧
      monthFromDoy (isLeap y) (dayWithinYear (makeDay y m0 d)) = m0 := by
  have e0 : y + m0 / 12 = y := by omega
  have e1 : m0 % 12 = m0 := by omega
  have hmk : makeDay y m0 d =
      dayFromYear y + monthOffset (isLeap y) m0 + (d - 1) := by
    simp only [makeDay, e0, e1]
  have hdim : daysInMonth y (m0 + 1) =
      monthOffset (isLeap y) (m0 + 1) - monthOffset (isLeap y) m0 := by
    simp only [daysInMonth, add_sub_cancel_right]
  have hoff0 := monthOffset_nonneg (isLeap y) m0
  have hoff1 : monthOffset (isLeap y) (m0 + 1) ≤ 365 + leapInt (isLeap y) := by
    have h12 := monthOffset_twelve (isLeap y) (r := 12) (by omega)
    have := monthOffset_le_mono (isLeap y) (show m0 + 1 ≤ 12 by omega)
    omega
  have hsucc := dayFromYear_succ y
  have hdy := daysInYear_eq y
  have hy : yearFromDay (makeDay y m0 d) = y := by
    apply yearFromDay_eq <;> omega
  refine ⟨hy, ?_, ?_⟩
  · simp only [dayWithinYear, hy]
    omega
  · have hdw : dayWithinYear (makeDay y m0 d) =
        monthOffset (isLeap y) m0 + (d - 1) := by
      simp only [dayWithinYear, hy]; omega
    rw [hdw]
    exact monthFromDoy_eq (isLeap y) hm0 hm1 (by omega) (by omega)

/-- Epoch millisecond of 12:00 UTC on day number `n`. -/
def noonOfDay (n : Int) : Int := MS_PER_DAY * n + 43200000

/-- Full recovery of the civil fields from a noon-UTC epoch value built
by `Date.UTC(y, m0, d, 12)`, for a calendar-valid month and day. -/
theorem getUTC_civil {y m0 d : Int} (hm0 : 0 ≤ m0) (hm1 : m0 ≤ 11)
    (hd1 : 1 ≤ d) (hd2 : d ≤ daysInMonth (makeFullYear y) (m0 + 1)) :
    getUTCFullYear (dateUTCNoonMs y m0 d) = makeFullYear y ∧
      getUTCMonth (dateUTCNoonMs y m0 d) = m0 ∧
      getUTCDate (dateUTCNoonMs y m0 d) = d := by
  obtain ⟨q1, q2, q3⟩ := makeDay_civil hm0 hm1 hd1 hd2 (y := makeFullYear y)
  have hday : dayOfMs (dateUTCNoonMs y m0 d) = makeDay (makeFullYear y) m0 d := by
    simp only [dateUTCNoonMs]
    exact dayOfMs_noon _
  have q3' := q3
  rw [q2] at q3'
  refine ⟨?_, ?_, ?_⟩
  · simp only [getUTCFullYear, hday, q1]
  · simp only [getUTCMonth, getUTCFullYear, hday, q1]
    exact q3
  · simp only [getUTCDate, getUTCMonth, getUTCFullYear, hday, q1, q2, q3']
    omega

/-! ### The generic tick loop

Every tick routine in the repository is a `while (cur <= end) { push cur;
cur = next(cur) }` loop for a strictly increasing `next`; `iterTicks` is
that loop, and `iterTicks_eq` its complete characterisation. -/

/-- The repository's tick loop: emit `t`, `next t`, `next (next t)`, ...
while the value is at most `e`. -/
def iterTicks (next : Int → Int) (hn : ∀ x, x < next x) (t e : Int) :
    List Int :=
  if t ≤ e then t :: iterTicks next hn (next t) e else []
termination_by (e + 1 - t).toNat
decreasing_by
  rename_i h
  have := hn t
  omega

/-- Complete characterisation of the tick loop: it returns the iterates
of `next` from `t` that are at most `e`, in order, stopping at the first
iterate that exceeds `e`. -/
theorem iterTicks_eq (next : Int → Int) (hn : ∀ x, x < next x) (t e : Int) :
    ∃ nn : Nat, iterTicks next hn t e =
        (List.range nn).map (fun k => next^[k] t) ∧
      (∀ k < nn, next^[k] t ≤ e) ∧ e < next^[nn] t := by
  generalize hM : (e + 1 - t).toNat = Mv
  induction Mv using Nat.strong_induction_on generalizing t with
  | _ Mv ih =>
    rw [iterTicks]
    by_cases hle : t ≤ e
    · have hdec : (e + 1 - next t).toNat < Mv := by
        have := hn t
        omega
      obtain ⟨nn, h1, h2, h3⟩ := ih _ hdec (next t) rfl
      refine ⟨nn + 1, ?_, ?_, ?_⟩
      · rw [if_pos hle, h1, List.range_succ_eq_map, List.map_cons,
          List.map_map, Function.iterate_zero_apply]
        congr 1
      · intro k hk
        cases k with
        | zero => simpa using hle
        | succ j =>
            rw [Function.iterate_succ_apply]
            exact h2 j (by omega)
      · rw [Function.iterate_succ_apply]
        exact h3
    · refine ⟨0, by simp [hle], by simp, by simpa using not_le.mp hle⟩

/-! ### Civil fields of a month start -/

theorem civil_monthStart (M : Int) :
    yearFromDay (monthStartDay M) = M / 12 ∧
      dayWithinYear (monthStartDay M) = monthOffset (isLeap (M / 12)) (M % 12) ∧
      monthFromDoy (isLeap (M / 12)) (dayWithinYear (monthStartDay M)) =
        M % 12 := by
  have hy : yearFromDay (monthStartDay M) = M / 12 :=
    yearFromDay_eq (monthStartDay_in_year M).1 (monthStartDay_in_year M).2
  have hdw : dayWithinYear (monthStartDay M) =
      monthOffset (isLeap (M / 12)) (M % 12) := by
    have : monthStartDay M =
        dayFromYear (M / 12) + monthOffset (isLeap (M / 12)) (M % 12) := rfl
    simp only [dayWithinYear, hy]
    omega
  refine ⟨hy, hdw, ?_⟩
  rw [hdw]
  exact monthFromDoy_eq _ (by omega) (by omega) (le_refl _)
    (monthOffset_lt_of_lt _ (by omega) (by omega) (by omega))

/-! ### Month-stepping used by the tick generators -/

/-- One step of the `monthlyTicks` loop in `src/App.tsx`:
`Date.UTC(t.getUTCFullYear(), t.getUTCMonth() + 1, 1, 12)`. -/
def nextMonthMs (t : Int) : Int :=
  dateUTCNoonMs (getUTCFullYear t) (getUTCMonth t + 1) 1

theorem lt_nextMonthMs (t : Int) : t < nextMonthMs t := by
  have hun : nextMonthMs t = MS_PER_DAY *
      makeDay (makeFullYear (yearFromDay (dayOfMs t)))
        (monthFromDoy (isLeap (yearFromDay (dayOfMs t)))
          (dayWithinYear (dayOfMs t)) + 1) 1 + 43200000 := by
    simp only [nextMonthMs, dateUTCNoonMs, getUTCMonth, getUTCFullYear]
  obtain ⟨hb1, hb2⟩ := day_month_bracket (dayOfMs t)
  obtain ⟨hd1, hd2⟩ := dayOfMs_bracket t
  have hmk := makeDay_first_eq_monthStartDay
      (makeFullYear (yearFromDay (dayOfMs t)))
      (monthFromDoy (isLeap (yearFromDay (dayOfMs t)))
        (dayWithinYear (dayOfMs t)) + 1)
  have hge := makeFullYear_ge (yearFromDay (dayOfMs t))
  have hmono := monthStartDay_le_of_le (show
      12 * yearFromDay (dayOfMs t) +
        monthFromDoy (isLeap (yearFromDay (dayOfMs t)))
          (dayWithinYear (dayOfMs t)) + 1 ≤
      12 * makeFullYear (yearFromDay (dayOfMs t)) +
        (monthFromDoy (isLeap (yearFromDay (dayOfMs t)))
          (dayWithinYear (dayOfMs t)) + 1) by omega)
  rw [hun, hmk]
  simp only [MS_PER_DAY] at hd1 hd2 ⊢
  omega

/-- `new Date(y, m0, d)` from the `ProjectManagementApp.tsx` variants,
as a day number; local time is modelled at UTC offset zero, which the
comparisons and whole-day steps of the tick generators do not depend
on. -/
def newDateDay (y m0 d : Int) : Int := makeDay (makeFullYear y) m0 d

/-- `Date.prototype.getFullYear` on day numbers. -/
def dGetFullYear (n : Int) : Int := yearFromDay n

/-- `Date.prototype.getMonth` (0-based) on day numbers. -/
def dGetMonth (n : Int) : Int :=
  monthFromDoy (isLeap (yearFromDay n)) (dayWithinYear n)

/-- `Date.prototype.getDay` (0 = Sunday) on day numbers. -/
def dGetDay (n : Int) : Int := weekDayOfDay n

/-- `Date.prototype.getDate` (1-based day of month) on day numbers. -/
def dGetDate (n : Int) : Int :=
  dayWithinYear n - monthOffset (isLeap (yearFromDay n)) (dGetMonth n) + 1

/-- The granularity union type of `ProjectManagementApp.tsx`. -/
inductive Granularity
  | weeks
  | months
  | quarters
  | years

/-- The step of the `tickGenerator` loop in both
`ProjectManagementApp.tsx` variants. -/
def tickNext : Granularity → Int → Int
  | .weeks, cur => cur + 7
  | .months, cur => newDateDay (dGetFullYear cur) (dGetMonth cur + 1) 1
  | .quarters, cur => newDateDay (dGetFullYear cur) (dGetMonth cur + 3) 1
  | .years, cur => newDateDay (dGetFullYear cur + 1) 0 1

theorem lt_newDateDay_add (cur j : Int) (hj : 1 ≤ j) :
    cur < newDateDay (dGetFullYear cur) (dGetMonth cur + j) 1 := by
  obtain ⟨hb1, hb2⟩ := day_month_bracket cur
  have hmk := makeDay_first_eq_monthStartDay
      (makeFullYear (yearFromDay cur))
      (monthFromDoy (isLeap (yearFromDay cur)) (dayWithinYear cur) + j)
  have hge := makeFullYear_ge (yearFromDay cur)
  have hmono := monthStartDay_le_of_le (show
      12 * yearFromDay cur +
        monthFromDoy (isLeap (yearFromDay cur)) (dayWithinYear cur) + 1 ≤
      12 * makeFullYear (yearFromDay cur) +
        (monthFromDoy (isLeap (yearFromDay cur)) (dayWithinYear cur) + j)
      by omega)
  simp only [newDateDay, dGetFullYear, dGetMonth]
  rw [hmk]
  omega

theorem lt_tickNext (g : Granularity) (cur : Int) : cur < tickNext g cur := by
  cases g with
  | weeks => simp only [tickNext]; omega
  | months => exact lt_newDateDay_add cur 1 (by omega)
  | quarters => exact lt_newDateDay_add cur 3 (by omega)
  | years =>
      obtain ⟨hb1, hb2⟩ := yearFromDay_bracket cur
      have hge := makeFullYear_ge (yearFromDay cur + 1)
      have hD := dayFromYear_le_of_le hge
      have hoff := (monthOffset_table (isLeap (makeFullYear
        (yearFromDay cur + 1)))).1
      simp only [tickNext, newDateDay, dGetFullYear, makeDay]
      norm_num
      omega

/-! ### The tick functions of the repository -/

/-- `weeklyTicks` from `src/utils/dateMath.ts` (the `src/App.tsx` copy
has identical logic): first tick at
`startMs + ((7 - startDate.getUTCDay()) % 7) * MS_PER_DAY` — the first
Sunday at or after `startMs` — then step by 7 days while at most
`endMs`. -/
def weeklyTicks (startMs endMs : Int) : List Int :=
  iterTicks (fun t => t + 7 * MS_PER_DAY)
    (fun x => by simp only [MS_PER_DAY]; omega)
    (startMs + (7 - getUTCDay startMs) % 7 * MS_PER_DAY) endMs

/-- `monthlyTicks` from `src/App.tsx`: start at
`Date.UTC(start.getUTCFullYear(), start.getUTCMonth(), 1, 12)`, step to
the 1st of each following month while at most `winEnd`, then
(`ticks.shift()`) drop the head tick when it is strictly before
`winStart`. -/
def monthlyTicks (winStart winEnd : Int) : List Int :=
  let ticks := iterTicks nextMonthMs lt_nextMonthMs
    (dateUTCNoonMs (getUTCFullYear winStart) (getUTCMonth winStart) 1) winEnd
  match ticks with
  | [] => []
  | t0 :: rest => if t0 < winStart then rest else t0 :: rest

/-- The initial alignment of the first `tickGenerator` variant in
`ProjectManagementApp.tsx` (weeks are not aligned). -/
def tickAlignV1 : Granularity → Int → Int
  | .weeks, start => start
  | .months, start => newDateDay (dGetFullYear start) (dGetMonth start) 1
  | .quarters, start =>
      newDateDay (dGetFullYear start) (dGetMonth start / 3 * 3) 1
  | .years, start => newDateDay (dGetFullYear start) 0 1

/-- `startOfWeekSunday` from the second `ProjectManagementApp.tsx`
variant: `addDays(d, -d.getDay())`. -/
def startOfWeekSunday (d : Int) : Int := d - dGetDay d

/-- The initial alignment of the second `tickGenerator` variant in
`ProjectManagementApp.tsx` (weeks aligned to the previous Sunday). -/
def tickAlignV2 : Granularity → Int → Int
  | .weeks, start => startOfWeekSunday start
  | .months, start => newDateDay (dGetFullYear start) (dGetMonth start) 1
  | .quarters, start =>
      newDateDay (dGetFullYear start) (dGetMonth start / 3 * 3) 1
  | .years, start => newDateDay (dGetFullYear start) 0 1

/-- `tickGenerator` (first variant, `ProjectManagementApp.tsx`): align,
then emit and step while at most `end`.  Dates are day numbers. -/
def tickGeneratorV1 (start endD : Int) (g : Granularity) : List Int :=
  iterTicks (tickNext g) (lt_tickNext g) (tickAlignV1 g start) endD

/-- `tickGenerator` (second variant, `ProjectManagementApp.tsx`). -/
def tickGeneratorV2 (start endD : Int) (g : Granularity) : List Int :=
  iterTicks (tickNext g) (lt_tickNext g) (tickAlignV2 g start) endD

/-! ### Step characterisations (away from the two-digit-year quirk) -/

theorem nextMonthMs_monthStart {M : Int} (h : 100 ≤ M / 12) :
    nextMonthMs (noonOfDay (monthStartDay M)) =
      noonOfDay (monthStartDay (M + 1)) := by
  obtain ⟨hy, hdw, hmo⟩ := civil_monthStart M
  have hid : makeFullYear (M / 12) = M / 12 := makeFullYear_id (by omega)
  have hmk := makeDay_first_eq_monthStartDay (M / 12) (M % 12 + 1)
  have hidx : 12 * (M / 12) + (M % 12 + 1) = M + 1 := by omega
  simp only [noonOfDay, nextMonthMs, getUTCMonth, getUTCFullYear,
    dayOfMs_noon, hy, hmo, dateUTCNoonMs, hid, hmk, hidx]

theorem nextMonthMs_iterate {M : Int} (h : 100 ≤ M / 12) (k : ℕ) :
    nextMonthMs^[k] (noonOfDay (monthStartDay M)) =
      noonOfDay (monthStartDay (M + k)) := by
  induction k generalizing M with
  | zero => simp
  | succ j ihj =>
      rw [Function.iterate_succ_apply, nextMonthMs_monthStart h,
        ihj (show 100 ≤ (M + 1) / 12 by omega)]
      congr 2
      push_cast
      ring

theorem tickNext_months_monthStart {M : Int} (h : 100 ≤ M / 12) :
    tickNext Granularity.months (monthStartDay M) = monthStartDay (M + 1) := by
  obtain ⟨hy, hdw, hmo⟩ := civil_monthStart M
  have hid : makeFullYear (M / 12) = M / 12 := makeFullYear_id (by omega)
  have hmk := makeDay_first_eq_monthStartDay (M / 12) (M % 12 + 1)
  have hidx : 12 * (M / 12) + (M % 12 + 1) = M + 1 := by omega
  simp only [tickNext, newDateDay, dGetFullYear, dGetMonth, hy, hmo, hid,
    hmk, hidx]

theorem tickNext_months_iterate {M : Int} (h : 100 ≤ M / 12) (k : ℕ) :
    (tickNext Granularity.months)^[k] (monthStartDay M) =
      monthStartDay (M + k) := by
  induction k generalizing M with
  | zero => simp
  | succ j ihj =>
      rw [Function.iterate_succ_apply, tickNext_months_monthStart h,
        ihj (show 100 ≤ (M + 1) / 12 by omega)]
      congr 1
      push_cast
      ring

theorem tickNext_quarters_monthStart {M : Int} (h : 100 ≤ M / 12) :
    tickNext Granularity.quarters (monthStartDay M) =
      monthStartDay (M + 3) := by
  obtain ⟨hy, hdw, hmo⟩ := civil_monthStart M
  have hid : makeFullYear (M / 12) = M / 12 := makeFullYear_id (by omega)
  have hmk := makeDay_first_eq_monthStartDay (M / 12) (M % 12 + 3)
  have hidx : 12 * (M / 12) + (M % 12 + 3) = M + 3 := by omega
  simp only [tickNext, newDateDay, dGetFullYear, dGetMonth, hy, hmo, hid,
    hmk, hidx]

theorem tickNext_years_monthStart {M : Int} (h : 100 ≤ M / 12)
    (hm : M % 12 = 0) :
    tickNext Granularity.years (monthStartDay M) =
      monthStartDay (M + 12) := by
  obtain ⟨hy, hdw, hmo⟩ := civil_monthStart M
  have hid : makeFullYear (M / 12 + 1) = M / 12 + 1 :=
    makeFullYear_id (by omega)
  have hmk := makeDay_first_eq_monthStartDay (M / 12 + 1) 0
  have hidx : 12 * (M / 12 + 1) + 0 = M + 12 := by omega
  simp only [tickNext, newDateDay, dGetFullYear, hy, hid, hmk, hidx]

theorem add_iterate (c : Int) (k : ℕ) :
    ∀ t : Int, (fun x => x + c)^[k] t = t + c * k := by
  induction k with
  | zero => intro t; simp
  | succ j ih =>
      intro t
      rw [Function.iterate_succ_apply]
      show (fun x => x + c)^[j] (t + c) = _
      rw [ih]
      push_cast
      ring

/-! ### Strings, digits and `Number` coercion

Date strings are modelled as `List Char`. -/

/-- Numeric value of a decimal digit character. -/
def charVal (c : Char) : Option Nat :=
  if decide ('0' ≤ c) && decide (c ≤ '9') then some (c.toNat - 48) else none

/-- Left-to-right accumulation of a decimal numeral; `none` as soon as a
non-digit appears. -/
def jsNumAux : Nat → List Char → Option Nat
  | acc, [] => some acc
  | acc, c :: cs =>
      match charVal c with
      | some d => jsNumAux (10 * acc + d) cs
      | none => none

/-- Model of JavaScript `Number` coercion restricted to the strings the
repository's date handling produces: the empty string coerces to `0`, a
string of decimal digits to its value, and any string containing a
non-digit character to NaN (`none`).  (Grammars JavaScript would also
accept — signs, fractions, exponents, surrounding whitespace — do not
occur inside `YYYY-MM-DD` text and are modelled as NaN.) -/
def jsNumber (s : List Char) : Option Int :=
  (jsNumAux 0 s).map Int.ofNat

/-- `String.prototype.split` with a one-character separator. -/
def splitOn (sep : Char) : List Char → List (List Char)
  | [] => [[]]
  | c :: cs =>
      if c = sep then [] :: splitOn sep cs
      else
        match splitOn sep cs with
        | [] => [[c]]
        | p :: ps => (c :: p) :: ps

/-- `toEpochUTCNoon` from `src/utils/dateMath.ts` (and its identical
`src/App.tsx` copy): the empty string is NaN; otherwise split on `"-"`,
coerce the first three components with `Number` (a missing month or day
defaults to 1 via `??`), and return `Date.UTC(y, m - 1, d, 12, 0, 0, 0)`.
A NaN component (`none`) propagates to a NaN result. -/
def toEpochUTCNoon (s : List Char) : Option Int :=
  if s = [] then none
  else
    match (splitOn '-' s).map jsNumber with
    | [] => none
    | [y?] => y?.bind fun y => some (dateUTCNoonMs y 0 1)
    | [y?, m?] =>
        y?.bind fun y => m?.bind fun m => some (dateUTCNoonMs y (m - 1) 1)
    | y? :: m? :: d? :: _ =>
        y?.bind fun y => m?.bind fun m => d?.bind fun d =>
          some (dateUTCNoonMs y (m - 1) d)

/-- Little-endian decimal digits of `n` as characters, with explicit
fuel (`fuel ≥ n` suffices); structural recursion keeps it computable by
the kernel. -/
def digitsRevFuel : Nat → Nat → List Char
  | 0, _ => []
  | fuel + 1, n =>
      if n = 0 then []
      else Nat.digitChar (n % 10) :: digitsRevFuel fuel (n / 10)

/-- Decimal rendering `String(n)` of a natural number. -/
def natDigits (n : Nat) : List Char :=
  if n = 0 then ['0'] else (digitsRevFuel n n).reverse

/-- Decimal rendering `String(i)` of an integer (template-literal
interpolation `${i}`). -/
def intDigits (i : Int) : List Char :=
  if i < 0 then '-' :: natDigits i.natAbs else natDigits i.toNat

/-- `String.prototype.padStart(2, "0")`. -/
def pad2 (l : List Char) : List Char :=
  List.replicate (2 - l.length) '0' ++ l

/-- Zero-padding to four characters, the `YYYY` width of the claimed
round-trip format. -/
def pad4 (l : List Char) : List Char :=
  List.replicate (4 - l.length) '0' ++ l

/-- `toInputYYYYMMDD` from `src/utils/dateMath.ts`:
`` `${y}-${mm}-${dd}` `` where the month and day are `padStart(2, "0")`
of the UTC fields and the year is `getUTCFullYear` rendered with no
padding. -/
def toInputYYYYMMDD (ms : Int) : List Char :=
  intDigits (getUTCFullYear ms) ++
    '-' :: (pad2 (intDigits (getUTCMonth ms + 1)) ++
      '-' :: pad2 (intDigits (getUTCDate ms)))

/-- The zero-padded `YYYY-MM-DD` rendering of a calendar date, the
format quantified over by the round-trip claim. -/
def dateStrYMD (y m d : Nat) : List Char :=
  pad4 (natDigits y) ++
    '-' :: (pad2 (natDigits m) ++ '-' :: pad2 (natDigits d))

/-! ### Digit and split lemmas -/

theorem charVal_digitChar {k : Nat} (h : k < 10) :
    charVal (Nat.digitChar k) = some k := by
  interval_cases k <;> decide

theorem jsNumAux_append (acc : Nat) (l1 l2 : List Char) :
    jsNumAux acc (l1 ++ l2) = (jsNumAux acc l1).bind fun a => jsNumAux a l2 := by
  induction l1 generalizing acc with
  | nil => simp [jsNumAux]
  | cons c cs ih =>
      rw [List.cons_append]
      cases hc : charVal c with
      | none => simp [jsNumAux, hc]
      | some d => simp [jsNumAux, hc, ih]

theorem digitsRevFuel_zero (fuel : Nat) : digitsRevFuel fuel 0 = [] := by
  cases fuel <;> simp [digitsRevFuel]

theorem digitsRevFuel_spec :
    ∀ fuel n acc : Nat, 0 < n → n ≤ fuel →
      jsNumAux acc (digitsRevFuel fuel n).reverse =
        some (acc * 10 ^ (digitsRevFuel fuel n).length + n) := by
  intro fuel
  induction fuel with
  | zero => intro n acc h1 h2; omega
  | succ f ih =>
      intro n acc h1 h2
      rw [digitsRevFuel, if_neg (by omega)]
      have hd : charVal (Nat.digitChar (n % 10)) = some (n % 10) :=
        charVal_digitChar (by omega)
      rcases Nat.eq_zero_or_pos (n / 10) with hq | hq
      · rw [hq, digitsRevFuel_zero]
        have hn10 : n % 10 = n := by omega
        simp [jsNumAux, hd]
        omega
      · have hrec := ih (n / 10) acc hq (by omega)
        rw [List.reverse_cons, jsNumAux_append, hrec]
        obtain ⟨m, r, hn, hr⟩ : ∃ m r, n = 10 * m + r ∧ r < 10 :=
          ⟨n / 10, n % 10, by omega, by omega⟩
        have e1 : n / 10 = m := by omega
        have e2 : n % 10 = r := by omega
        simp only [e1, e2] at hd ⊢
        simp [jsNumAux, hd, List.length_cons, pow_succ, hn]
        ring

theorem jsNumber_natDigits (n : Nat) : jsNumber (natDigits n) = some (n : Int) := by
  rcases Nat.eq_zero_or_pos n with h0 | h0
  · subst h0; decide
  · unfold jsNumber natDigits
    rw [if_neg (by omega), digitsRevFuel_spec n n 0 h0 (le_refl n)]
    simp

theorem jsNumber_pad_zeros (j : Nat) (l : List Char) :
    jsNumber (List.replicate j '0' ++ l) = jsNumber l := by
  induction j with
  | zero => simp
  | succ i ih =>
      have h0 : charVal '0' = some 0 := by decide
      rw [List.replicate_succ, List.cons_append, ← ih]
      simp [jsNumber, jsNumAux, h0]

theorem digitsRevFuel_length_pos {fuel n : Nat} (h1 : 0 < n) (h2 : n ≤ fuel) :
    0 < (digitsRevFuel fuel n).length := by
  cases fuel with
  | zero => omega
  | succ f =>
      rw [digitsRevFuel, if_neg (by omega)]
      simp

theorem digitsRevFuel_length_bound :
    ∀ fuel n : Nat, 0 < n → n ≤ fuel →
      10 ^ ((digitsRevFuel fuel n).length - 1) ≤ n ∧
        n < 10 ^ (digitsRevFuel fuel n).length := by
  intro fuel
  induction fuel with
  | zero => intro n h1 h2; omega
  | succ f ih =>
      intro n h1 h2
      rw [digitsRevFuel, if_neg (by omega)]
      rcases Nat.eq_zero_or_pos (n / 10) with hq | hq
      · rw [hq, digitsRevFuel_zero]
        norm_num
        omega
      · obtain ⟨hl, hr⟩ := ih (n / 10) hq (by omega)
        have hL : 0 < (digitsRevFuel f (n / 10)).length :=
          digitsRevFuel_length_pos hq (by omega)
        simp only [List.length_cons]
        constructor
        · have e : (digitsRevFuel f (n / 10)).length + 1 - 1 =
              ((digitsRevFuel f (n / 10)).length - 1) + 1 := by omega
          rw [e, pow_succ]
          have hmul : 10 ^ ((digitsRevFuel f (n / 10)).length - 1) * 10 ≤
              (n / 10) * 10 := Nat.mul_le_mul_right 10 hl
          omega
        · rw [pow_succ]
          have hmul : (n / 10 + 1) * 10 ≤ 10 ^ (digitsRevFuel f (n / 10)).length * 10 :=
            Nat.mul_le_mul_right 10 (by omega)
          omega

theorem natDigits_length_four {n : Nat} (h1 : 1000 ≤ n) (h2 : n ≤ 9999) :
    (natDigits n).length = 4 := by
  unfold natDigits
  rw [if_neg (by omega), List.length_reverse]
  obtain ⟨hl, hr⟩ := digitsRevFuel_length_bound n n (by omega) (le_refl n)
  by_contra hne
  rcases lt_or_gt_of_ne hne with hlt | hgt
  · have hb : (10:ℕ) ^ (digitsRevFuel n n).length ≤ 10 ^ 3 :=
      Nat.pow_le_pow_right (by norm_num) (by omega)
    norm_num at hb
    omega
  · have hb : (10:ℕ) ^ 4 ≤ 10 ^ ((digitsRevFuel n n).length - 1) :=
      Nat.pow_le_pow_right (by norm_num) (by omega)
    norm_num at hb
    omega

theorem splitOn_not_mem {sep : Char} {a : List Char} (h : sep ∉ a) :
    splitOn sep a = [a] := by
  induction a with
  | nil => rfl
  | cons c cs ih =>
      rw [List.mem_cons, not_or] at h
      rw [splitOn, if_neg (fun e => h.1 e.symm), ih h.2]

theorem splitOn_append {sep : Char} :
    ∀ a b : List Char, sep ∉ a →
      splitOn sep (a ++ sep :: b) = a :: splitOn sep b := by
  intro a
  induction a with
  | nil => intro b _; simp [splitOn]
  | cons c cs ih =>
      intro b h
      rw [List.mem_cons, not_or] at h
      rw [List.cons_append, splitOn, if_neg (fun e => h.1 e.symm),
        ih b h.2]

theorem digitChar_ne_dash {k : Nat} (h : k < 10) : Nat.digitChar k ≠ '-' := by
  interval_cases k <;> decide

theorem not_dash_digitsRevFuel : ∀ fuel n : Nat, '-' ∉ digitsRevFuel fuel n := by
  intro fuel
  induction fuel with
  | zero => intro n; simp [digitsRevFuel]
  | succ f ih =>
      intro n
      rw [digitsRevFuel]
      split
      · simp
      · rw [List.mem_cons, not_or]
        exact ⟨fun e => digitChar_ne_dash (by omega) e.symm, ih (n / 10)⟩

theorem not_dash_natDigits (n : Nat) : '-' ∉ natDigits n := by
  unfold natDigits
  split
  · decide
  · rw [List.mem_reverse]
    exact not_dash_digitsRevFuel n n

theorem not_dash_pad {j : Nat} {l : List Char} (h : '-' ∉ l) :
    '-' ∉ List.replicate j '0' ++ l := by
  rw [List.mem_append, not_or]
  exact ⟨fun hm => by simpa using (List.eq_of_mem_replicate hm), h⟩

/-! ### Geometry -/

/-- `widthFromDates` from `src/App.tsx`:
`Math.max(0, ((endMs - startMs) / MS_PER_DAY + 1) * pxPerDay)`. -/
def widthFromDates (startMs endMs : Int) (pxPerDay : ℚ) : ℚ :=
  max 0 ((((endMs : ℚ) - (startMs : ℚ)) / 86400000 + 1) * pxPerDay)

/-- `wFromDates` from `src/utils/dateMath.ts`, where `PX_PER_DAY = 18`
is a module constant. -/
def wFromDates (startMs endMs : Int) : ℚ :=
  max 0 ((((endMs : ℚ) - (startMs : ℚ)) / 86400000 + 1) * 18)

/-- The spec's `dayDelta` on instants: whole days from `a` to `b`
(exact for noon-UTC instants). -/
def dayDelta (a b : Int) : Int := (b - a) / MS_PER_DAY

/-! ### Comma-separated date lists and project spans
(`ProjectManagementApp.tsx`)

`new Date(text)` on free-form text is implementation-defined in
ECMAScript, so the entry parser is a parameter `pd`; every theorem below
holds for an arbitrary parser. -/

/-- JavaScript whitespace for `String.prototype.trim` (the subset that
can occur in form input). -/
def isWS (c : Char) : Bool := c = ' ' || c = '\t' || c = '\n' || c = '\r'

/-- `String.prototype.trim`. -/
def trimChars (s : List Char) : List Char :=
  ((s.dropWhile isWS).reverse.dropWhile isWS).reverse

/-- `parseDate` from `ProjectManagementApp.tsx`: trim, return `null` on
a blank entry, otherwise parse with `new Date(text)` (the parameter
`pd`, returning a calendar day number or `none` for an invalid date;
the source then normalises to that calendar day). -/
def parseDate (pd : List Char → Option Int) (s : List Char) : Option Int :=
  let t := trimChars s
  if t = [] then none else pd t

/-- `parseCommaDates` from `ProjectManagementApp.tsx`: split on `","`,
parse each entry, keep only the entries that parsed, and sort ascending
by time value.  `Array.prototype.sort` with the numeric comparator is
required to be stable and consistent, so it computes the unique stable
ascending ordering, here `List.insertionSort`. -/
def parseCommaDates (pd : List Char → Option Int) (value : List Char) :
    List Int :=
  List.insertionSort (· ≤ ·) ((splitOn ',' value).filterMap (parseDate pd))

/-- The `Project` record of `ProjectManagementApp.tsx` (fields the date
logic reads). -/
structure Project where
  id : List Char
  name : List Char
  priority : Int
  teamMemberIds : List (List Char)
  startDates : List Char
  dueDates : List Char
  stabilizationDates : List Char
  completeDates : List Char
  completed : Bool

/-- `getProjectAllDates`: parse all four date fields and sort the
concatenation ascending. -/
def getProjectAllDates (pd : List Char → Option Int) (p : Project) :
    List Int :=
  List.insertionSort (· ≤ ·)
    (parseCommaDates pd p.startDates ++ parseCommaDates pd p.dueDates ++
      parseCommaDates pd p.stabilizationDates ++
      parseCommaDates pd p.completeDates)

/-- `getProjectSpan`: the first and last of all parsed dates, or both
`null` when no date parsed. -/
def getProjectSpan (pd : List Char → Option Int) (p : Project) :
    Option Int × Option Int :=
  let all := getProjectAllDates pd p
  if all = [] then (none, none) else (all.head?, all.getLast?)

/-! ### ConflictDetector (not present under `src/`; modelled from the
spec, §4.5) -/

/-- An interval as the spec's ConflictDetector consumes it; instants are
noon-UTC epoch values abstracted to integers. -/
structure Interval where
  id : Nat
  startInstant : Int
  endInstant : Int
  resourceIds : List Nat
deriving DecidableEq

/-- A conflict record as the spec's ConflictDetector emits it. -/
structure Conflict where
  resourceId : Nat
  intervalIdA : Nat
  intervalIdB : Nat
  overlapStart : Int
  overlapEnd : Int
deriving DecidableEq

/-- Modelled from the spec: the ConflictDetector's overlap test, `two
intervals conflict iff startA ≤ endB AND startB ≤ endA`
(inclusive-endpoint overlap). -/
def overlapsB (a b : Interval) : Bool :=
  decide (a.startInstant ≤ b.endInstant) &&
    decide (b.startInstant ≤ a.endInstant)

/-- Modelled from the spec: one conflict record per overlapping pair,
with `overlapStart = max(startA, startB)`, `overlapEnd = min(endA,
endB)`. -/
def mkConflict (r : Nat) (a b : Interval) : Conflict :=
  { resourceId := r, intervalIdA := a.id, intervalIdB := b.id,
    overlapStart := max a.startInstant b.startInstant,
    overlapEnd := min a.endInstant b.endInstant }

/-- Modelled from the spec: within one resource's start-sorted group,
compare each interval against every later interval and emit the
overlapping pairs (the spec's sweep is declared `correctness-equivalent`
to this pairwise form). -/
def conflictsOfGroup (r : Nat) : List Interval → List Conflict
  | [] => []
  | a :: rest =>
      ((rest.filter (fun b => overlapsB a b)).map (mkConflict r a)) ++
        conflictsOfGroup r rest

/-- Modelled from the spec (§4.5 `findConflicts`): group the intervals
by each resource id they carry (in first-appearance order, a fixed
deterministic order), sort each group by `startInstant`, and emit one
conflict per overlapping pair per shared resource. -/
def findConflicts (ivs : List Interval) : List Conflict :=
  (((ivs.map Interval.resourceIds).flatten).dedup.map fun r =>
    conflictsOfGroup r
      (List.insertionSort (fun a b => a.startInstant ≤ b.startInstant)
        (ivs.filter (fun iv => r ∈ iv.resourceIds)))).flatten

/-! ### DragController (not present under `src/`; modelled from the
spec, §4.4) -/

/-- The spec's drag modes. -/
inductive DragMode
  | move
  | resizeStart
  | resizeEnd

/-- Modelled from the spec: step 2 of the §4.4 pointer-move handling,
inverting a pixel delta to a day delta, `round(deltaPx / pxPerDay)`. -/
def dayDeltaOfPx (deltaPx pxPerDay : ℚ) : Int := round (deltaPx / pxPerDay)

/-- Modelled from the spec: step 3 of the §4.4 pointer-move handling,
applied to the original start/end captured at drag start: `move` shifts
both ends by the day delta; `resizeStart` shifts only the start,
clamped to the end; `resizeEnd` symmetrically. -/
def applyDrag : DragMode → Int → Int → Int → Int × Int
  | .move, s, e, k => (s + k, e + k)
  | .resizeStart, s, e, k => (min (s + k) e, e)
  | .resizeEnd, s, e, k => (s, max (e + k) s)

/-! ### One-step unfolding of the tick loop -/

theorem iterTicks_cons {next : Int → Int} {hn : ∀ x, x < next x} {t e : Int}
    (h : t ≤ e) : iterTicks next hn t e = t :: iterTicks next hn (next t) e := by
  rw [iterTicks.eq_def, if_pos h]

theorem iterTicks_nil {next : Int → Int} {hn : ∀ x, x < next x} {t e : Int}
    (h : e < t) : iterTicks next hn t e = [] := by
  rw [iterTicks.eq_def, if_neg (not_le.mpr h)]

/-! ### Claims -/

/-- C5: for whole-day (noon-UTC) instants and every positive `pxPerDay`,
`widthFromRange` (`widthFromDates` in `src/App.tsx`, `wFromDates` with
`PX_PER_DAY = 18` in `src/utils/dateMath.ts`) equals
`max 0 ((dayDelta(start, end) + 1) * pxPerDay)`; a same-day interval has
width exactly `pxPerDay`, and the result is never negative. -/
theorem c5_width_from_range (a b : Int) (px : ℚ) (hpx : 0 < px) :
    widthFromDates (noonOfDay a) (noonOfDay b) px =
        max 0 (((dayDelta (noonOfDay a) (noonOfDay b) + 1 : Int) : ℚ) * px) ∧
      widthFromDates (noonOfDay a) (noonOfDay a) px = px ∧
      0 ≤ widthFromDates (noonOfDay a) (noonOfDay b) px ∧
      wFromDates (noonOfDay a) (noonOfDay b) =
        widthFromDates (noonOfDay a) (noonOfDay b) 18 := by
  have hdd : dayDelta (noonOfDay a) (noonOfDay b) = b - a := by
    simp only [dayDelta, noonOfDay, MS_PER_DAY]
    omega
  have hq : ((noonOfDay b : Int) : ℚ) - ((noonOfDay a : Int) : ℚ) =
      86400000 * ((b : ℚ) - (a : ℚ)) := by
    simp only [noonOfDay, MS_PER_DAY]
    push_cast
    ring
  have hdiv : (((noonOfDay b : Int) : ℚ) - ((noonOfDay a : Int) : ℚ)) /
      86400000 = (b : ℚ) - (a : ℚ) := by
    rw [hq, mul_div_cancel_left₀]
    norm_num
  refine ⟨?_, ?_, ?_, ?_⟩
  · rw [widthFromDates, hdiv, hdd]
    push_cast
    ring_nf
  · have hdiv0 : (((noonOfDay a : Int) : ℚ) - ((noonOfDay a : Int) : ℚ)) /
        86400000 = 0 := by
      simp
    rw [widthFromDates, hdiv0]
    simpa using le_of_lt hpx
  · exact le_max_left 0 _
  · rw [wFromDates, widthFromDates]

/-- Witness for C5 at `a = b = 0`, `px = 18`. -/
theorem c5_width_from_range_witness :
    (0 : ℚ) < 18 ∧ widthFromDates (noonOfDay 0) (noonOfDay 0) 18 = 18 :=
  ⟨by norm_num, (c5_width_from_range 0 0 18 (by norm_num)).2.1⟩

/-- C7: a drag in `move` mode by a pixel delta equivalent to `k` days
(`round(deltaPx / pxPerDay) = k`) shifts both `startInstant` and
`endInstant` by exactly `k` days, preserving the duration
`endInstant - startInstant`. -/
theorem c7_drag_move_preserves_duration (s e k : Int) (deltaPx px : ℚ)
    (h : dayDeltaOfPx deltaPx px = k) :
    applyDrag DragMode.move s e k = (s + k, e + k) ∧
      (applyDrag DragMode.move s e k).2 - (applyDrag DragMode.move s e k).1 =
        e - s := by
  refine ⟨rfl, ?_⟩
  simp only [applyDrag]
  ring

/-- Witness for C7: a 36-pixel drag at 18 px/day is 2 days. -/
theorem c7_drag_move_witness :
    applyDrag DragMode.move 5 9 2 = (7, 11) ∧
      (applyDrag DragMode.move 5 9 2).2 - (applyDrag DragMode.move 5 9 2).1 =
        9 - 5 := by
  have h := c7_drag_move_preserves_duration 5 9 2 36 18 (by
    rw [dayDeltaOfPx, show (36 : ℚ) / 18 = ((2 : Int) : ℚ) by norm_num,
      round_intCast])
  exact ⟨h.1, h.2⟩

/-- C3: on the fixture of three intervals sharing resource 7 —
A: [Jan 1, Jan 10] (days 1–10), B: [Jan 5, Jan 15] (days 5–15),
C: [Feb 1, Feb 5] (days 32–36) — `findConflicts` returns exactly one
conflict, pairing A and B with `overlapStart` = Jan 5 and
`overlapEnd` = Jan 10, and C appears in no conflict; and in general the
detector's conflict test holds iff `startA ≤ endB ∧ startB ≤ endA`
(inclusive endpoints). -/
theorem c3_find_conflicts_fixture :
    findConflicts
        [⟨1, 1, 10, [7]⟩, ⟨2, 5, 15, [7]⟩, ⟨3, 32, 36, [7]⟩] =
      [⟨7, 1, 2, 5, 10⟩] ∧
    ∀ a b : Interval, overlapsB a b = true ↔
      (a.startInstant ≤ b.endInstant ∧ b.startInstant ≤ a.endInstant) := by
  constructor
  · decide
  · intro a b
    simp [overlapsB]

/-- C8: parsing a comma-separated date list drops exactly the entries
that do not parse — the result is the sorted parse of the parseable
entries alone, and a value appears in the result iff some entry parses
to it; a malformed entry never aborts the whole computation (stated for
an arbitrary `new Date(string)` parser `pd`). -/
theorem c8_parse_comma_dates_drops (pd : List Char → Option Int)
    (value : List Char) :
    parseCommaDates pd value =
        List.insertionSort (· ≤ ·)
          (((splitOn ',' value).filter
              (fun e => (parseDate pd e).isSome)).filterMap (parseDate pd)) ∧
      ∀ d : Int, d ∈ parseCommaDates pd value ↔
        ∃ e ∈ splitOn ',' value, parseDate pd e = some d := by
  have hfm : ∀ l : List (List Char),
      (l.filter fun e => (parseDate pd e).isSome).filterMap (parseDate pd) =
        l.filterMap (parseDate pd) := by
    intro l
    induction l with
    | nil => rfl
    | cons x xs ih =>
        cases hx : parseDate pd x with
        | none => simp [List.filter_cons, List.filterMap_cons, hx, ih]
        | some v => simp [List.filter_cons, List.filterMap_cons, hx, ih]
  constructor
  · rw [parseCommaDates, hfm]
  · intro d
    rw [parseCommaDates,
      (List.perm_insertionSort (· ≤ ·) _).mem_iff, List.mem_filterMap]

/-- C9: `getProjectSpan` returns either both endpoints `null` (no field
yields a parseable date) or a span with `start ≤ end`; because all
parsed dates are sorted ascending before taking the first and last, a
reversed span is impossible (stated for an arbitrary entry parser
`pd`). -/
theorem c9_project_span_ordered (pd : List Char → Option Int) (p : Project) :
    getProjectSpan pd p = (none, none) ∨
      ∃ s e : Int, getProjectSpan pd p = (some s, some e) ∧ s ≤ e := by
  have hsorted : List.Sorted (· ≤ ·) (getProjectAllDates pd p) :=
    List.sorted_insertionSort _ _
  rw [getProjectSpan]
  cases hall : getProjectAllDates pd p with
  | nil => left; simp
  | cons x xs =>
      right
      rw [hall] at hsorted
      have hlast_mem : (x :: xs).getLast (by simp) ∈ x :: xs :=
        List.getLast_mem _
      refine ⟨x, (x :: xs).getLast (by simp), ?_, ?_⟩
      · simp [List.getLast?_eq_getLast]
      · rcases List.mem_cons.mp hlast_mem with h | h
        · exact le_of_eq h.symm
        · exact (List.sorted_cons.mp hsorted).1 _ h

/-- C10: `toEpochUTCNoon` never signals an error: the empty string is
NaN (`none`), a non-numeric year component makes the result NaN, and a
well-formed but calendar-invalid date such as `2025-02-30` rolls over to
the corresponding later day (`2025-03-02`) instead of being rejected. -/
theorem c10_to_epoch_tolerant :
    toEpochUTCNoon [] = none ∧
      (∀ p1 rest : List Char, jsNumber p1 = none → '-' ∉ p1 →
        toEpochUTCNoon (p1 ++ '-' :: rest) = none) ∧
      toEpochUTCNoon ['2','0','2','5','-','0','2','-','3','0'] =
        toEpochUTCNoon ['2','0','2','5','-','0','3','-','0','2'] ∧
      (toEpochUTCNoon ['2','0','2','5','-','0','2','-','3','0']).isSome =
        true := by
  refine ⟨rfl, ?_, by decide, by decide⟩
  intro p1 rest hnum hmem
  have hne : p1 ++ '-' :: rest ≠ [] := by cases p1 <;> simp
  rw [toEpochUTCNoon, if_neg hne, splitOn_append p1 rest hmem,
    List.map_cons, hnum]
  cases hsp : (splitOn '-' rest).map jsNumber with
  | nil => simp
  | cons m t =>
      cases t with
      | nil => simp
      | cons d t2 => simp

/-- Witness for C10's non-numeric-component case at the concrete input
`"a-01"`. -/
theorem c10_to_epoch_tolerant_witness :
    toEpochUTCNoon ['a', '-', '0', '1'] = none :=
  c10_to_epoch_tolerant.2.1 ['a'] ['0', '1'] (by decide) (by decide)

/-! ### Helpers for the tick-generation claims -/

theorem dGetMonth_bounds (n : Int) : 0 ≤ dGetMonth n ∧ dGetMonth n ≤ 11 := by
  obtain ⟨b1, b2⟩ := yearFromDay_bracket n
  have hsucc := dayFromYear_succ (yearFromDay n)
  have hdy := daysInYear_eq (yearFromDay n)
  have hdw : dayWithinYear n = n - dayFromYear (yearFromDay n) := rfl
  obtain ⟨q0, q1, q2, q3⟩ :=
    monthFromDoy_bracket (isLeap (yearFromDay n))
      (show (0 : Int) ≤ dayWithinYear n by omega) (by omega)
  exact ⟨q0, q1⟩

theorem day_month_bracket_d (n : Int) :
    monthStartDay (12 * dGetFullYear n + dGetMonth n) ≤ n ∧
      n < monthStartDay (12 * dGetFullYear n + dGetMonth n + 1) :=
  day_month_bracket n

theorem tickAlign_months (sD : Int) (h : 100 ≤ dGetFullYear sD) :
    tickAlignV1 Granularity.months sD =
      monthStartDay (12 * dGetFullYear sD + dGetMonth sD) := by
  simp only [tickAlignV1, newDateDay, makeFullYear_id h,
    makeDay_first_eq_monthStartDay]

theorem tickAlignV2_months (sD : Int) :
    tickAlignV2 Granularity.months sD = tickAlignV1 Granularity.months sD :=
  rfl

theorem tickAlign_quarters (sD : Int) (h : 100 ≤ dGetFullYear sD) :
    tickAlignV1 Granularity.quarters sD =
      monthStartDay (12 * dGetFullYear sD + dGetMonth sD / 3 * 3) := by
  simp only [tickAlignV1, newDateDay, makeFullYear_id h,
    makeDay_first_eq_monthStartDay]

theorem tickAlign_years (sD : Int) (h : 100 ≤ dGetFullYear sD) :
    tickAlignV1 Granularity.years sD =
      monthStartDay (12 * dGetFullYear sD) := by
  simp only [tickAlignV1, newDateDay, makeFullYear_id h,
    makeDay_first_eq_monthStartDay, add_zero]

theorem tickAlignV2_quarters (sD : Int) :
    tickAlignV2 Granularity.quarters sD =
      tickAlignV1 Granularity.quarters sD :=
  rfl

theorem tickAlignV2_years (sD : Int) :
    tickAlignV2 Granularity.years sD = tickAlignV1 Granularity.years sD :=
  rfl

theorem M0_div_12 (sD : Int) :
    (12 * dGetFullYear sD + dGetMonth sD) / 12 = dGetFullYear sD := by
  obtain ⟨h0, h1⟩ := dGetMonth_bounds sD
  omega

theorem dateUTC_monthStart (t : Int) (h : 100 ≤ getUTCFullYear t) :
    dateUTCNoonMs (getUTCFullYear t) (getUTCMonth t) 1 =
      noonOfDay (monthStartDay (12 * getUTCFullYear t + getUTCMonth t)) := by
  rw [dateUTCNoonMs, makeFullYear_id h, makeDay_first_eq_monthStartDay]
  rfl

theorem getUTC_eq_d (t : Int) :
    getUTCFullYear t = dGetFullYear (dayOfMs t) ∧
      getUTCMonth t = dGetMonth (dayOfMs t) := ⟨rfl, rfl⟩

/-- C4 counterexample: on the reversed window `[Jan 15 2025, Jan 10
2025]` (day numbers 20103 > 20098), `tickGenerator` at month
granularity returns the one-element sequence `[Jan 1 2025]` (day 20089)
— a normal value, not a failure, contradicting the claimed fatal
`InvalidWindow`. -/
theorem c4_counterexample :
    tickGeneratorV1 20103 20098 Granularity.months = [20089] := by
  rw [tickGeneratorV1,
    show tickAlignV1 Granularity.months 20103 = 20089 from by decide,
    iterTicks_cons (by norm_num),
    show tickNext Granularity.months 20089 = 20120 from by decide,
    iterTicks_nil (by norm_num)]

/-- C4 (amended): for every window with `end < start` (outside the
two-digit-year quirk region), tick and geometry generation do not fail
— they return normally: `weeklyTicks` and `monthlyTicks` return the
empty list, week-granularity `tickGenerator` (variant 1, unaligned)
returns the empty list, every aligned generator — weeks of variant 2,
and months, quarters and years of both variants — returns at most its
single initial alignment tick, and the width geometry returns a
clamped non-negative value, exactly zero on a reversed whole-day
range. -/
theorem c4_reversed_window (s e sD eD : Int) (hms : e < s)
    (hyr : 100 ≤ getUTCFullYear s) (hd : eD < sD)
    (hyrD : 100 ≤ dGetFullYear sD) :
    weeklyTicks s e = [] ∧
      monthlyTicks s e = [] ∧
      tickGeneratorV1 sD eD Granularity.weeks = [] ∧
      (tickGeneratorV1 sD eD Granularity.months).length ≤ 1 ∧
      (tickGeneratorV1 sD eD Granularity.quarters).length ≤ 1 ∧
      (tickGeneratorV1 sD eD Granularity.years).length ≤ 1 ∧
      (tickGeneratorV2 sD eD Granularity.weeks).length ≤ 1 ∧
      (tickGeneratorV2 sD eD Granularity.months).length ≤ 1 ∧
      (tickGeneratorV2 sD eD Granularity.quarters).length ≤ 1 ∧
      (tickGeneratorV2 sD eD Granularity.years).length ≤ 1 ∧
      (∀ px : ℚ, 0 < px →
        widthFromDates (noonOfDay sD) (noonOfDay eD) px = 0) ∧
      wFromDates (noonOfDay sD) (noonOfDay eD) = 0 := by
  obtain ⟨hb1, hb2⟩ := day_month_bracket_d (dayOfMs s)
  obtain ⟨hdb1, hdb2⟩ := dayOfMs_bracket s
  obtain ⟨hm0, hm1⟩ := dGetMonth_bounds (dayOfMs s)
  obtain ⟨db1, db2⟩ := day_month_bracket_d sD
  obtain ⟨dm0, dm1⟩ := dGetMonth_bounds sD
  have hmonths : (tickGeneratorV1 sD eD Granularity.months).length ≤ 1 := by
    rw [tickGeneratorV1, tickAlign_months sD hyrD]
    rcases le_or_lt (monthStartDay (12 * dGetFullYear sD + dGetMonth sD)) eD
      with hle | hgt
    · rw [iterTicks_cons hle,
        tickNext_months_monthStart (by rw [M0_div_12]; exact hyrD),
        iterTicks_nil (by omega)]
      simp
    · rw [iterTicks_nil hgt]
      simp
  have hquarters :
      (tickGeneratorV1 sD eD Granularity.quarters).length ≤ 1 := by
    rw [tickGeneratorV1, tickAlign_quarters sD hyrD]
    rcases le_or_lt
      (monthStartDay (12 * dGetFullYear sD + dGetMonth sD / 3 * 3)) eD
      with hle | hgt
    · rw [iterTicks_cons hle,
        tickNext_quarters_monthStart (by
          rw [show (12 * dGetFullYear sD + dGetMonth sD / 3 * 3) / 12 =
            dGetFullYear sD by omega]
          exact hyrD),
        iterTicks_nil (by
          have hmono := monthStartDay_le_of_le (show
            12 * dGetFullYear sD + dGetMonth sD + 1 ≤
            12 * dGetFullYear sD + dGetMonth sD / 3 * 3 + 3 by omega)
          omega)]
      simp
    · rw [iterTicks_nil hgt]
      simp
  have hyears : (tickGeneratorV1 sD eD Granularity.years).length ≤ 1 := by
    rw [tickGeneratorV1, tickAlign_years sD hyrD]
    rcases le_or_lt (monthStartDay (12 * dGetFullYear sD)) eD with hle | hgt
    · rw [iterTicks_cons hle,
        tickNext_years_monthStart (by
          rw [show 12 * dGetFullYear sD / 12 = dGetFullYear sD by omega]
          exact hyrD)
          (by omega),
        iterTicks_nil (by
          have hmono := monthStartDay_le_of_le (show
            12 * dGetFullYear sD + dGetMonth sD + 1 ≤
            12 * dGetFullYear sD + 12 by omega)
          omega)]
      simp
    · rw [iterTicks_nil hgt]
      simp
  have hgeom : ∀ px : ℚ, 0 < px →
      widthFromDates (noonOfDay sD) (noonOfDay eD) px = 0 := by
    intro px hpx
    have hq : ((noonOfDay eD : Int) : ℚ) - ((noonOfDay sD : Int) : ℚ) =
        86400000 * ((eD : ℚ) - (sD : ℚ)) := by
      simp only [noonOfDay, MS_PER_DAY]
      push_cast
      ring
    have hdiv : (((noonOfDay eD : Int) : ℚ) - ((noonOfDay sD : Int) : ℚ)) /
        86400000 = (eD : ℚ) - (sD : ℚ) := by
      rw [hq, mul_div_cancel_left₀]
      norm_num
    rw [widthFromDates, hdiv]
    have hle : (eD : ℚ) - (sD : ℚ) + 1 ≤ 0 := by
      have hc : (eD : ℚ) + 1 ≤ (sD : ℚ) := by
        exact_mod_cast (show eD + 1 ≤ sD by omega)
      linarith
    have hnp : ((eD : ℚ) - (sD : ℚ) + 1) * px ≤ 0 := by
      nlinarith
    exact max_eq_left hnp
  refine ⟨?_, ?_, ?_, hmonths, hquarters, hyears, ?_, ?_, ?_, ?_, hgeom, ?_⟩
  · rw [weeklyTicks]
    apply iterTicks_nil
    have : 0 ≤ (7 - getUTCDay s) % 7 * MS_PER_DAY := by
      simp only [MS_PER_DAY]
      omega
    omega
  · rw [monthlyTicks, (getUTC_eq_d s).1, (getUTC_eq_d s).2]
    have hyr' : 100 ≤ dGetFullYear (dayOfMs s) := hyr
    have ht0 : dateUTCNoonMs (dGetFullYear (dayOfMs s))
        (dGetMonth (dayOfMs s)) 1 =
        noonOfDay (monthStartDay (12 * dGetFullYear (dayOfMs s) +
          dGetMonth (dayOfMs s))) := by
      rw [dateUTCNoonMs, makeFullYear_id hyr', makeDay_first_eq_monthStartDay]
      rfl
    rw [ht0]
    rcases le_or_lt (noonOfDay (monthStartDay (12 * dGetFullYear (dayOfMs s) +
        dGetMonth (dayOfMs s)))) e with hle | hgt
    · rw [iterTicks_cons hle,
        nextMonthMs_monthStart (by rw [M0_div_12]; exact hyr'),
        iterTicks_nil (by
          simp only [noonOfDay, MS_PER_DAY] at *
          omega)]
      have hlt : noonOfDay (monthStartDay (12 * dGetFullYear (dayOfMs s) +
          dGetMonth (dayOfMs s))) < s := by
        omega
      simp [hlt]
    · rw [iterTicks_nil hgt]
  · rw [tickGeneratorV1, show tickAlignV1 Granularity.weeks sD = sD from rfl,
      iterTicks_nil hd]
  · rw [tickGeneratorV2, show tickAlignV2 Granularity.weeks sD =
      startOfWeekSunday sD from rfl]
    rcases le_or_lt (startOfWeekSunday sD) eD with hle | hgt
    · rw [iterTicks_cons hle, show tickNext Granularity.weeks
        (startOfWeekSunday sD) = startOfWeekSunday sD + 7 from rfl,
        iterTicks_nil (by
          simp only [startOfWeekSunday, dGetDay, weekDayOfDay] at *
          omega)]
      simp
    · rw [iterTicks_nil hgt]
      simp
  · rw [tickGeneratorV2, tickAlignV2_months, ← tickGeneratorV1]
    exact hmonths
  · rw [tickGeneratorV2, tickAlignV2_quarters, ← tickGeneratorV1]
    exact hquarters
  · rw [tickGeneratorV2, tickAlignV2_years, ← tickGeneratorV1]
    exact hyears
  · have := hgeom 18 (by norm_num)
    rw [widthFromDates] at this
    rw [wFromDates]
    exact this

/-- The week step of `tickGenerator` is plain 7-day addition. -/
theorem tickNext_weeks : tickNext Granularity.weeks = fun cur => cur + 7 :=
  rfl

/-- C2 counterexample: for the window `[Mon Jan 6 2025, Mon Jan 20
2025]` (noon UTC), `weeklyTicks` emits `[Sun Jan 12, Sun Jan 19]` — its
first tick lies strictly after `window.start`, not at the most recent
Sunday on or before it (Sun Jan 5). -/
theorem c2_counterexample :
    weeklyTicks 1736164800000 1737374400000 =
        [1736683200000, 1737288000000] ∧
      (1736164800000 : Int) < 1736683200000 := by
  refine ⟨?_, by norm_num⟩
  rw [weeklyTicks,
    show (1736164800000 : Int) + (7 - getUTCDay 1736164800000) % 7 *
      MS_PER_DAY = 1736683200000 from by decide,
    iterTicks_cons (by norm_num)]
  norm_num [MS_PER_DAY]
  rw [iterTicks_cons (by norm_num)]
  norm_num
  rw [iterTicks_nil (by norm_num)]

/-- C2 (amended): `weeklyTicks` emits as its first tick the first
Sunday *at or after* `window.start` (the same instant when the start is
a Sunday) — not the most recent one on or before it; the second
`tickGenerator` variant (weeks) does emit the most recent or current
Sunday on or before `window.start`.  In both, every subsequent tick is
exactly 7 days after the previous one, and generation stops once a tick
exceeds `window.end`. -/
theorem c2_week_tick_alignment (s e dD eD : Int) (hse : s ≤ e)
    (hseD : dD ≤ eD) :
    (s ≤ s + (7 - getUTCDay s) % 7 * MS_PER_DAY ∧
      s + (7 - getUTCDay s) % 7 * MS_PER_DAY < s + 7 * MS_PER_DAY ∧
      getUTCDay (s + (7 - getUTCDay s) % 7 * MS_PER_DAY) = 0 ∧
      ∃ nn : ℕ, weeklyTicks s e =
          (List.range nn).map
            (fun k : ℕ => s + (7 - getUTCDay s) % 7 * MS_PER_DAY +
              604800000 * (k : Int)) ∧
        (∀ k : ℕ, k < nn → s + (7 - getUTCDay s) % 7 * MS_PER_DAY +
          604800000 * (k : Int) ≤ e) ∧
        e < s + (7 - getUTCDay s) % 7 * MS_PER_DAY +
          604800000 * (nn : Int)) ∧
    (startOfWeekSunday dD ≤ dD ∧ dD < startOfWeekSunday dD + 7 ∧
      dGetDay (startOfWeekSunday dD) = 0 ∧
      ∃ mm : ℕ, tickGeneratorV2 dD eD Granularity.weeks =
          (List.range mm).map
            (fun k : ℕ => startOfWeekSunday dD + 7 * (k : Int)) ∧
        (∀ k : ℕ, k < mm → startOfWeekSunday dD + 7 * (k : Int) ≤ eD) ∧
        eD < startOfWeekSunday dD + 7 * (mm : Int)) := by
  constructor
  · refine ⟨?_, ?_, ?_, ?_⟩
    · have : 0 ≤ (7 - getUTCDay s) % 7 * MS_PER_DAY := by
        simp only [MS_PER_DAY]; omega
      omega
    · simp only [getUTCDay, weekDayOfDay, dayOfMs, MS_PER_DAY]
      omega
    · simp only [getUTCDay, weekDayOfDay, dayOfMs, MS_PER_DAY]
      omega
    · obtain ⟨nn, h1, h2, h3⟩ := iterTicks_eq (fun t => t + 7 * MS_PER_DAY)
        (fun x => by simp only [MS_PER_DAY]; omega)
        (s + (7 - getUTCDay s) % 7 * MS_PER_DAY) e
      refine ⟨nn, ?_, ?_, ?_⟩
      · rw [weeklyTicks, h1]
        apply List.map_congr_left
        intro k _
        rw [add_iterate]
        simp only [MS_PER_DAY]
        norm_num
      · intro k hk
        have := h2 k hk
        rw [add_iterate] at this
        simp only [MS_PER_DAY] at this ⊢
        omega
      · have := h3
        rw [add_iterate] at this
        simp only [MS_PER_DAY] at this ⊢
        omega
  · refine ⟨?_, ?_, ?_, ?_⟩
    · simp only [startOfWeekSunday, dGetDay, weekDayOfDay]
      omega
    · simp only [startOfWeekSunday, dGetDay, weekDayOfDay]
      omega
    · simp only [startOfWeekSunday, dGetDay, weekDayOfDay]
      omega
    · obtain ⟨mm, h1, h2, h3⟩ := iterTicks_eq (tickNext Granularity.weeks)
        (lt_tickNext Granularity.weeks) (startOfWeekSunday dD) eD
      have hit : ∀ k : ℕ, (tickNext Granularity.weeks)^[k]
          (startOfWeekSunday dD) = startOfWeekSunday dD + 7 * k := by
        intro k
        rw [tickNext_weeks, add_iterate]
      refine ⟨mm, ?_, ?_, ?_⟩
      · rw [tickGeneratorV2, show tickAlignV2 Granularity.weeks dD =
          startOfWeekSunday dD from rfl, h1]
        apply List.map_congr_left
        intro k _
        rw [hit]
      · intro k hk
        have := h2 k hk
        rw [hit] at this
        omega
      · have := h3
        rw [hit] at this
        omega

/-- Witness for C2 at the window `[Jan 6 2025, Jan 20 2025]`: the
emitted first week tick is a Sunday. -/
theorem c2_week_tick_alignment_witness :
    getUTCDay (1736164800000 + (7 - getUTCDay 1736164800000) % 7 *
      MS_PER_DAY) = 0 :=
  (c2_week_tick_alignment 1736164800000 1737374400000 20094 20108
    (by norm_num) (by norm_num)).1.2.2.1

/-- Witness for C4 at the reversed window `[Jan 15 2025, Jan 10 2025]`:
empty weekly ticks and zero width at 18 px/day. -/
theorem c4_reversed_window_witness :
    weeklyTicks 1736942400000 1736510400000 = [] ∧
      widthFromDates (noonOfDay 20103) (noonOfDay 20098) 18 = 0 := by
  obtain ⟨w1, w2, w3, w4, w5, w6, w7, w8, w9, w10, w11, w12⟩ :=
    c4_reversed_window 1736942400000 1736510400000 20103 20098
      (by norm_num) (by decide) (by norm_num) (by decide)
  exact ⟨w1, w11 18 (by norm_num)⟩

/-- C1 counterexample: for the window `[Jan 15 2025, Mar 31 2025]`
(noon UTC), `monthlyTicks` returns `[Feb 1, Mar 1]` — the head tick
Jan 1 2025 (the 1st of `window.start`'s month) is dropped from the
returned sequence, not emitted. -/
theorem c1_counterexample :
    monthlyTicks 1736942400000 1743422400000 =
        [1738411200000, 1740830400000] ∧
      (1735732800000 : Int) ∉ monthlyTicks 1736942400000 1743422400000 := by
  have hres : monthlyTicks 1736942400000 1743422400000 =
      [1738411200000, 1740830400000] := by
    rw [monthlyTicks,
      show dateUTCNoonMs (getUTCFullYear 1736942400000)
        (getUTCMonth 1736942400000) 1 = 1735732800000 from by decide,
      iterTicks_cons (by norm_num),
      show nextMonthMs 1735732800000 = 1738411200000 from by decide,
      iterTicks_cons (by norm_num),
      show nextMonthMs 1738411200000 = 1740830400000 from by decide,
      iterTicks_cons (by norm_num),
      show nextMonthMs 1740830400000 = 1743508800000 from by decide,
      iterTicks_nil (by norm_num)]
    norm_num
  exact ⟨hres, by rw [hres]; norm_num⟩

/-- C1 (amended): for a window whose start day is not the 1st of its
month (away from the two-digit-year quirk), the `tickGenerator`
variants emit as first tick the 1st of `window.start`'s month — an
instant preceding `window.start` — and keep it; subsequent ticks are
the 1sts of each following month up to `window.end`.  `monthlyTicks`
generates the same head tick but then drops it (`ticks.shift()`), so
its returned sequence starts at the 1st of the month after
`window.start`'s. -/
theorem c1_month_tick_head (s e sD eD : Int)
    (hyr : 100 ≤ getUTCFullYear s) (hd1 : getUTCDate s ≠ 1)
    (hin : noonOfDay (monthStartDay
      (12 * getUTCFullYear s + getUTCMonth s)) ≤ e)
    (hyrD : 100 ≤ dGetFullYear sD) (hd1D : dGetDate sD ≠ 1)
    (hinD : monthStartDay (12 * dGetFullYear sD + dGetMonth sD) ≤ eD) :
    (∃ nn : ℕ, 1 ≤ nn ∧
      tickGeneratorV1 sD eD Granularity.months =
        (List.range nn).map (fun k : ℕ => monthStartDay
          (12 * dGetFullYear sD + dGetMonth sD + (k : Int))) ∧
      (tickGeneratorV1 sD eD Granularity.months).head? =
        some (monthStartDay (12 * dGetFullYear sD + dGetMonth sD)) ∧
      monthStartDay (12 * dGetFullYear sD + dGetMonth sD) < sD ∧
      (∀ k : ℕ, k < nn → monthStartDay
        (12 * dGetFullYear sD + dGetMonth sD + (k : Int)) ≤ eD) ∧
      eD < monthStartDay (12 * dGetFullYear sD + dGetMonth sD + (nn : Int))) ∧
    tickGeneratorV2 sD eD Granularity.months =
      tickGeneratorV1 sD eD Granularity.months ∧
    (∃ nn : ℕ, 1 ≤ nn ∧
      monthlyTicks s e = (List.range (nn - 1)).map (fun k : ℕ =>
        noonOfDay (monthStartDay
          (12 * getUTCFullYear s + getUTCMonth s + 1 + (k : Int)))) ∧
      noonOfDay (monthStartDay (12 * getUTCFullYear s + getUTCMonth s)) < s ∧
      (∀ k : ℕ, k < nn → noonOfDay (monthStartDay
        (12 * getUTCFullYear s + getUTCMonth s + (k : Int))) ≤ e) ∧
      e < noonOfDay (monthStartDay
        (12 * getUTCFullYear s + getUTCMonth s + (nn : Int)))) := by
  obtain ⟨db1, db2⟩ := day_month_bracket_d sD
  obtain ⟨dm0, dm1⟩ := dGetMonth_bounds sD
  have hM0D : (12 * dGetFullYear sD + dGetMonth sD) / 12 = dGetFullYear sD :=
    M0_div_12 sD
  have hheadD : monthStartDay (12 * dGetFullYear sD + dGetMonth sD) < sD := by
    have hdd : dGetDate sD =
        sD - monthStartDay (12 * dGetFullYear sD + dGetMonth sD) + 1 := by
      have e2 : (12 * dGetFullYear sD + dGetMonth sD) % 12 = dGetMonth sD := by
        omega
      have hdw : dayWithinYear sD = sD - dayFromYear (yearFromDay sD) := rfl
      simp only [dGetDate, monthStartDay, hM0D, e2]
      simp only [dGetFullYear, dGetMonth] at *
      omega
    omega
  refine ⟨?_, rfl, ?_⟩
  · obtain ⟨nn, h1, h2, h3⟩ := iterTicks_eq (tickNext Granularity.months)
      (lt_tickNext Granularity.months) (tickAlignV1 Granularity.months sD) eD
    rw [tickAlign_months sD hyrD] at h1 h2 h3
    have hit : ∀ k : ℕ, (tickNext Granularity.months)^[k]
        (monthStartDay (12 * dGetFullYear sD + dGetMonth sD)) =
        monthStartDay (12 * dGetFullYear sD + dGetMonth sD + (k : Int)) := by
      intro k
      rw [tickNext_months_iterate (by rw [hM0D]; exact hyrD)]
    have hstruct : tickGeneratorV1 sD eD Granularity.months =
        (List.range nn).map (fun k : ℕ => monthStartDay
          (12 * dGetFullYear sD + dGetMonth sD + (k : Int))) := by
      rw [tickGeneratorV1, tickAlign_months sD hyrD, h1]
      apply List.map_congr_left
      intro k _
      rw [hit]
    have hnn : 1 ≤ nn := by
      rcases Nat.eq_zero_or_pos nn with h0 | h0
      · subst h0
        have := h3
        rw [hit 0] at this
        simp at this
        omega
      · exact h0
    refine ⟨nn, hnn, hstruct, ?_, hheadD, ?_, ?_⟩
    · rw [hstruct]
      obtain ⟨m, rfl⟩ : ∃ m, nn = m + 1 := ⟨nn - 1, by omega⟩
      simp [List.range_succ_eq_map]
    · intro k hk
      have := h2 k hk
      rw [hit] at this
      exact this
    · have := h3
      rw [hit] at this
      exact this
  · obtain ⟨hb1, hb2⟩ := day_month_bracket_d (dayOfMs s)
    obtain ⟨hdb1, hdb2⟩ := dayOfMs_bracket s
    obtain ⟨m0, m1⟩ := dGetMonth_bounds (dayOfMs s)
    have hyr' : 100 ≤ dGetFullYear (dayOfMs s) := hyr
    have hM0 : (12 * dGetFullYear (dayOfMs s) + dGetMonth (dayOfMs s)) / 12 =
        dGetFullYear (dayOfMs s) := M0_div_12 (dayOfMs s)
    have ht0 : dateUTCNoonMs (dGetFullYear (dayOfMs s))
        (dGetMonth (dayOfMs s)) 1 =
        noonOfDay (monthStartDay (12 * dGetFullYear (dayOfMs s) +
          dGetMonth (dayOfMs s))) := by
      rw [dateUTCNoonMs, makeFullYear_id hyr', makeDay_first_eq_monthStartDay]
      rfl
    have hheadlt : noonOfDay (monthStartDay (12 * dGetFullYear (dayOfMs s) +
        dGetMonth (dayOfMs s))) < s := by
      have hdd : getUTCDate s =
          dayOfMs s - monthStartDay (12 * dGetFullYear (dayOfMs s) +
            dGetMonth (dayOfMs s)) + 1 := by
        have e2 : (12 * dGetFullYear (dayOfMs s) + dGetMonth (dayOfMs s)) %
            12 = dGetMonth (dayOfMs s) := by omega
        have hdw : dayWithinYear (dayOfMs s) =
            dayOfMs s - dayFromYear (yearFromDay (dayOfMs s)) := rfl
        simp only [getUTCDate, getUTCMonth, getUTCFullYear, monthStartDay,
          hM0, e2]
        simp only [dGetFullYear, dGetMonth] at *
        omega
      simp only [noonOfDay, MS_PER_DAY] at *
      omega
    obtain ⟨nn, h1, h2, h3⟩ := iterTicks_eq nextMonthMs lt_nextMonthMs
      (dateUTCNoonMs (getUTCFullYear s) (getUTCMonth s) 1) e
    rw [(getUTC_eq_d s).1, (getUTC_eq_d s).2, ht0] at h1 h2 h3
    have hit : ∀ k : ℕ, nextMonthMs^[k]
        (noonOfDay (monthStartDay (12 * dGetFullYear (dayOfMs s) +
          dGetMonth (dayOfMs s)))) =
        noonOfDay (monthStartDay (12 * dGetFullYear (dayOfMs s) +
          dGetMonth (dayOfMs s) + (k : Int))) := by
      intro k
      rw [nextMonthMs_iterate (by rw [hM0]; exact hyr')]
    have hin' : noonOfDay (monthStartDay (12 * dGetFullYear (dayOfMs s) +
        dGetMonth (dayOfMs s))) ≤ e := by
      rw [(getUTC_eq_d s).1, (getUTC_eq_d s).2] at hin
      exact hin
    have hnn : 1 ≤ nn := by
      rcases Nat.eq_zero_or_pos nn with h0 | h0
      · subst h0
        have := h3
        rw [hit 0] at this
        simp at this
        omega
      · exact h0
    refine ⟨nn, hnn, ?_, ?_, ?_, ?_⟩
    · rw [monthlyTicks, (getUTC_eq_d s).1, (getUTC_eq_d s).2, ht0, h1]
      obtain ⟨m, rfl⟩ : ∃ m, nn = m + 1 := ⟨nn - 1, by omega⟩
      rw [List.range_succ_eq_map, List.map_cons, List.map_map, hit 0]
      have hcond : noonOfDay (monthStartDay (12 * dGetFullYear (dayOfMs s) +
          dGetMonth (dayOfMs s) + ((0 : ℕ) : Int))) < s := by
        simpa using hheadlt
      simp only [hcond, if_pos]
      rw [Nat.add_sub_cancel]
      apply List.map_congr_left
      intro k _
      simp only [Function.comp]
      rw [hit]
      congr 2
      push_cast
      ring
    · rw [(getUTC_eq_d s).1, (getUTC_eq_d s).2]
      exact hheadlt
    · intro k hk
      have := h2 k hk
      rw [hit] at this
      rw [(getUTC_eq_d s).1, (getUTC_eq_d s).2]
      exact this
    · have := h3
      rw [hit] at this
      rw [(getUTC_eq_d s).1, (getUTC_eq_d s).2]
      exact this

/-- Witness for C1 at the window `[Jan 15 2025, Mar 31 2025]`: the
month tick generator emits the 1st of January as its head tick. -/
theorem c1_month_tick_head_witness :
    (tickGeneratorV1 20103 20178 Granularity.months).head? =
      some (monthStartDay (12 * dGetFullYear 20103 + dGetMonth 20103)) := by
  obtain ⟨nn, _, _, hh, _⟩ := (c1_month_tick_head 1736942400000 1743422400000
    20103 20178 (by decide) (by decide) (by decide) (by decide) (by decide)
    (by decide)).1
  exact hh

/-! ### The normalise-format round trip (C6) -/

theorem intDigits_natCast (n : Nat) : intDigits (n : Int) = natDigits n := by
  rw [intDigits, if_neg (by omega)]
  simp

theorem pad4_of_length_four {l : List Char} (h : l.length = 4) :
    pad4 l = l := by
  simp [pad4, h]

/-- C6 counterexample: the valid zero-padded date string `"0099-01-01"`
does not round-trip: `Date.UTC` maps year 99 to 1999 (ECMAScript
MakeFullYear), so formatting returns `"1999-01-01"`. -/
theorem c6_counterexample :
    toEpochUTCNoon (dateStrYMD 99 1 1) = some 915192000000 ∧
      toInputYYYYMMDD 915192000000 = dateStrYMD 1999 1 1 ∧
      dateStrYMD 1999 1 1 ≠ dateStrYMD 99 1 1 := by
  refine ⟨by decide, by decide, by decide⟩

/-- C6 (amended): for every valid calendar date whose year has four
digits with no leading zero (1000–9999), formatting after normalising
is the identity: `toInputYYYYMMDD (toEpochUTCNoon s) = s` for
`s = YYYY-MM-DD`.  (For years 0–99 the `Date.UTC` two-digit-year rule
rewrites the year, and for years below 1000 the formatter does not
zero-pad the year, so the round trip fails there — see the
counterexample.) -/
theorem c6_roundtrip (y m d : Nat) (hy1 : 1000 ≤ y) (hy2 : y ≤ 9999)
    (hm1 : 1 ≤ m) (hm2 : m ≤ 12) (hd1 : 1 ≤ d)
    (hd2 : (d : Int) ≤ daysInMonth (y : Int) (m : Int)) :
    toEpochUTCNoon (dateStrYMD y m d) =
        some (dateUTCNoonMs (y : Int) ((m : Int) - 1) (d : Int)) ∧
      toInputYYYYMMDD (dateUTCNoonMs (y : Int) ((m : Int) - 1) (d : Int)) =
        dateStrYMD y m d := by
  have hnd4 : '-' ∉ pad4 (natDigits y) := by
    simp only [pad4]
    exact not_dash_pad (not_dash_natDigits y)
  have hnd2m : '-' ∉ pad2 (natDigits m) := by
    simp only [pad2]
    exact not_dash_pad (not_dash_natDigits m)
  have hnd2d : '-' ∉ pad2 (natDigits d) := by
    simp only [pad2]
    exact not_dash_pad (not_dash_natDigits d)
  have hsplit : splitOn '-' (dateStrYMD y m d) =
      [pad4 (natDigits y), pad2 (natDigits m), pad2 (natDigits d)] := by
    rw [dateStrYMD, splitOn_append _ _ hnd4, splitOn_append _ _ hnd2m,
      splitOn_not_mem hnd2d]
  have hjy : jsNumber (pad4 (natDigits y)) = some (y : Int) := by
    rw [pad4, jsNumber_pad_zeros, jsNumber_natDigits]
  have hjm : jsNumber (pad2 (natDigits m)) = some (m : Int) := by
    rw [pad2, jsNumber_pad_zeros, jsNumber_natDigits]
  have hjd : jsNumber (pad2 (natDigits d)) = some (d : Int) := by
    rw [pad2, jsNumber_pad_zeros, jsNumber_natDigits]
  have hne : dateStrYMD y m d ≠ [] := by
    rw [dateStrYMD]
    cases pad4 (natDigits y) <;> simp
  have hparse : toEpochUTCNoon (dateStrYMD y m d) =
      some (dateUTCNoonMs (y : Int) ((m : Int) - 1) (d : Int)) := by
    rw [toEpochUTCNoon, if_neg hne, hsplit, List.map_cons, List.map_cons,
      List.map_cons, List.map_nil, hjy, hjm, hjd]
    rfl
  have hmfy : makeFullYear (y : Int) = (y : Int) :=
    makeFullYear_id (by omega)
  have hm11 : (m : Int) - 1 + 1 = (m : Int) := by ring
  obtain ⟨qy, qm, qd⟩ := getUTC_civil
    (show (0 : Int) ≤ (m : Int) - 1 by omega)
    (show (m : Int) - 1 ≤ 11 by omega)
    (show (1 : Int) ≤ (d : Int) by omega)
    (y := (y : Int)) (by rw [hmfy, hm11]; exact hd2)
  rw [hmfy] at qy
  refine ⟨hparse, ?_⟩
  rw [toInputYYYYMMDD, qy, qm, qd, hm11, intDigits_natCast,
    intDigits_natCast, intDigits_natCast, dateStrYMD,
    pad4_of_length_four (natDigits_length_four hy1 hy2)]

/-- Witness for C6 at the date 2025-02-28. -/
theorem c6_roundtrip_witness :
    toEpochUTCNoon (dateStrYMD 2025 2 28) =
        some (dateUTCNoonMs 2025 1 28) ∧
      toInputYYYYMMDD (dateUTCNoonMs 2025 1 28) = dateStrYMD 2025 2 28 := by
  have h := c6_roundtrip 2025 2 28 (by norm_num) (by norm_num) (by norm_num)
    (by norm_num) (by norm_num) (by decide)
  norm_num at h
  exact h

end PIRA
